import Mathlib

/-!
Verification of the nomad-autoscaler core: a shallow embedding of the
policy parser (`policy/nomad`), the horizontal policy validator
(`policy/nomad/validate_horizontal.go`), the strategy `Action` state
machine (`plugins/strategy`), and the agent's per-check evaluation
(`agent/agent.go`), together with theorems settling the specification's
claims about them.

Go `map[string]T` values are embedded as association lists with
insert-replace semantics (`mInsert`); a nil map is `Option.none` where the
nil/non-nil distinction matters (writing to a nil Go map panics, which we
embed as `Option.none` results).  Go's `interface{}` values occurring in
raw policy documents are embedded as the inductive `GoVal`.  `multierror`
accumulation is embedded as a `List String` of violation messages, where
the empty list corresponds to `ErrorOrNil() == nil`.
-/

namespace Autoscaler

/-- Lookup in a Go-style string-keyed map embedded as an association list. -/
def mLookup {α : Type} : List (String × α) → String → Option α
  | [], _ => none
  | (k', v) :: t, k => if k' = k then some v else mLookup t k

/-- Go map assignment `m[k] = v`: replace the binding if the key is present,
otherwise add it. -/
def mInsert {α : Type} : List (String × α) → String → α → List (String × α)
  | [], k, v => [(k, v)]
  | (k', v') :: t, k, v => if k' = k then (k, v) :: t else (k', v') :: mInsert t k v

/-- A Go `interface{}` value as it occurs in a raw policy document. -/
inductive GoVal : Type where
  | str (s : String)
  | num (n : Int)
  | bool (b : Bool)
  | list (xs : List GoVal)
  | map (m : List (String × GoVal))

mutual

/-- Go `fmt.Sprintf("%v", v)` for the embedded values. -/
def goFormat : GoVal → String
  | .str s => s
  | .num n => toString n
  | .bool b => cond b "true" "false"
  | .list xs => "[" ++ goFormatList xs ++ "]"
  | .map m => "map[" ++ goFormatEntries m ++ "]"

def goFormatList : List GoVal → String
  | [] => ""
  | [x] => goFormat x
  | x :: xs => goFormat x ++ " " ++ goFormatList xs

def goFormatEntries : List (String × GoVal) → String
  | [] => ""
  | [(k, v)] => k ++ ":" ++ goFormat v
  | (k, v) :: kvs => k ++ ":" ++ goFormat v ++ " " ++ goFormatEntries kvs

end

/-- `parseBlock` (policy/nomad): accepts only a sequence containing exactly
one element that is a key-to-value mapping; anything else yields no block.
The `Option GoVal` argument models a possibly-nil `interface{}`. -/
def parseBlock : Option GoVal → Option (List (String × GoVal))
  | some (.list [.map m]) => some m
  | _ => none

/-- `policy.Strategy`: decision-plugin binding.  `Config` is nil (`none`)
when the strategy block carries no `config` block. -/
structure Strategy where
  Name : String
  Config : Option (List (String × String))
deriving DecidableEq

/-- `policy.Target`: scale-target binding. -/
structure Target where
  Name : String
  Config : List (String × String)
deriving DecidableEq

/-- `policy.Check`: one metric-driven decision rule.  `Strategy` is a
pointer in the source, hence `Option`. -/
structure Check where
  Name : String
  Source : String
  Query : String
  Strategy : Option Strategy
deriving DecidableEq

/-- `policy.Policy`: the canonical in-memory policy.  Durations are held
as plain integers (nanoseconds); no claim depends on their values. -/
structure Policy where
  ID : String
  Min : Int
  Max : Int
  Enabled : Bool
  EvaluationInterval : Int
  Cooldown : Int
  Target : Option Target
  Checks : List Check
deriving DecidableEq

/-- Modelled from the spec: the constants file naming the raw-policy block
keys is not under src/; the spec names the blocks target, strategy,
check, query, source, evaluation_interval and cooldown. -/
def keyChecks : String := "check"

/-- Modelled from the spec: see `keyChecks`. -/
def keyTarget : String := "target"

/-- Modelled from the spec: see `keyChecks`. -/
def keyStrategy : String := "strategy"

/-- Modelled from the spec: see `keyChecks`. -/
def keyQuery : String := "query"

/-- Modelled from the spec: see `keyChecks`. -/
def keySource : String := "source"

/-- Go's `s, _ := v.(string)` idiom on a possibly-absent value: the string
itself, or the zero value for a nil or non-string value. -/
def goString (o : Option GoVal) : String :=
  match o with
  | some (.str s) => s
  | _ => ""

/-- `parseStrategy` (policy/nomad): best-effort parsing of the strategy
block; returns `none` for a nil value or a malformed block. -/
def parseStrategy (s : Option GoVal) : Option Strategy :=
  match parseBlock s with
  | none => none
  | some strategyMap =>
    let configMapString : Option (List (String × String)) :=
      match parseBlock (mLookup strategyMap "config") with
      | none => none
      | some configMap => some (configMap.map (fun kv => (kv.1, goFormat kv.2)))
    some { Name := goString (mLookup strategyMap "name"), Config := configMapString }

/-- `parseTarget` (policy/nomad): parses the target block and merges it
with the flat `Target` attribute map; values in `target.config` take
precedence over values in the attribute map.  A nil attribute map is
`none`. -/
def parseTarget (targetBlock : Option GoVal)
    (targetAttr : Option (List (String × String))) : Option Target :=
  let targetMap := parseBlock targetBlock
  match targetMap, targetAttr with
  | none, none => none
  | _, _ =>
    let configMapString : List (String × String) :=
      (targetAttr.getD []).foldl (fun acc kv => mInsert acc kv.1 kv.2) []
    let configMapString : List (String × String) :=
      match targetMap with
      | none => configMapString
      | some tm =>
        match parseBlock (mLookup tm "config") with
        | none => configMapString
        | some configMap =>
          configMap.foldl (fun acc kv => mInsert acc kv.1 (goFormat kv.2)) configMapString
    let name : String :=
      match targetMap with
      | none => ""
      | some tm => goString (mLookup tm "name")
    some { Name := name, Config := configMapString }

/-- `parseCheck` (policy/nomad): best-effort parsing of one check block.
A non-string or absent `query`/`source` leaves the empty string. -/
def parseCheck (c : Option GoVal) : Option Check :=
  match parseBlock c with
  | none => none
  | some checkMap =>
    some { Name := ""
           Source := goString (mLookup checkMap keySource)
           Query := goString (mLookup checkMap keyQuery)
           Strategy := parseStrategy (mLookup checkMap keyStrategy) }

/-- `parseChecks` (policy/nomad): the checks value is a sequence of
labelled maps; each entry parses via `parseCheck` with the map key as
`Check.Name`; malformed entries are skipped. -/
def parseChecks (cs : Option GoVal) : List Check :=
  match cs with
  | some (.list xs) =>
    (xs.map (fun x =>
      match x with
      | .map checkMap =>
        checkMap.filterMap (fun kv =>
          (parseCheck (some kv.2)).map (fun chk => { chk with Name := kv.1 }))
      | _ => [])).flatten
  | _ => []

/-- `api.ScalingPolicy`, restricted to the fields the parser and validator
read.  `Min` and `Max` are nilable in the raw form (the validator checks
both for nil). -/
structure RawScalingPolicy where
  ID : String
  Min : Option Int
  Max : Option Int
  Enabled : Option Bool
  Target : Option (List (String × String))
  Policy : List (String × GoVal)

/-- `parsePolicy` (policy/nomad): best-effort translation of a raw policy
into `Policy`.  The `evaluation_interval`/`cooldown` duration strings are
parsed by the external Go standard library (`time.ParseDuration`, not part
of this repository); their parsed values are not the subject of any claim
and are left at the zero value here. -/
def parsePolicy (p : RawScalingPolicy) : Policy :=
  { ID := p.ID
    Min := p.Min.getD 0
    Max := p.Max.getD 0
    Enabled := p.Enabled.getD true
    EvaluationInterval := 0
    Cooldown := 0
    Target := parseTarget (mLookup p.Policy keyTarget) p.Target
    Checks := parseChecks (mLookup p.Policy keyChecks) }

/-- The Min/Max section of `validateHorizontalPolicy`
(validate_horizontal.go lines 14-37): nil-Min short-circuits everything,
nil-Max short-circuits the ordering checks, otherwise the three
negativity/ordering rules are checked independently. -/
def validateBounds (mn mx : Option Int) : List String :=
  match mn with
  | none => ["scaling.min is missing"]
  | some mnv =>
    match mx with
    | none => ["scaling.max is missing"]
    | some mxv =>
      (if mnv < 0 then ["scaling.min can't be negative"] else []) ++
      (if mnv > mxv then ["scaling.min must be smaller than scaling.max"] else []) ++
      (if mxv < 0 then ["scaling.max can't be negative"] else [])

/-- `validateCheckHorizontal` (validate_horizontal.go): the only rule is
that the `query` key exists in the check block. -/
def validateCheckHorizontal (c : List (String × GoVal)) (path : String) : List String :=
  if (mLookup c keyQuery).isSome then [] else [path ++ "." ++ keyQuery ++ " is missing"]

/-- Modelled from the spec: `validateBlocks`/`validateLabeledBlocks` are
not under src/.  Per the spec, the checks collection must unwrap as a
block holding at least one labelled entry (lower bound 1, no upper bound),
each labelled entry must itself unwrap as a block, and each such block is
checked by `validateCheckHorizontal`; all messages are scoped under the
path "scaling.policy."++keyChecks. -/
def validateChecksBlock (v : Option GoVal) : List String :=
  match parseBlock v with
  | none => ["scaling.policy." ++ (keyChecks ++ " is invalid")]
  | some m =>
    (if m.length < 1 then ["scaling.policy." ++ (keyChecks ++ " must have at least 1 block")] else []) ++
    (m.map (fun kv =>
      match parseBlock (some kv.2) with
      | none => ["scaling.policy." ++ (keyChecks ++ "[" ++ kv.1 ++ "] is invalid")]
      | some cm =>
        validateCheckHorizontal cm ("scaling.policy." ++ (keyChecks ++ "[" ++ kv.1 ++ "]")))).flatten

/-- `validateHorizontalPolicy` (validate_horizontal.go): bounds rules then
check-block rules, all violations accumulated; the empty list corresponds
to `ErrorOrNil() == nil`. -/
def validateHorizontalPolicy (p : RawScalingPolicy) : List String :=
  validateBounds p.Min p.Max ++ validateChecksBlock (mLookup p.Policy keyChecks)

/-- The values the strategy package stores in `Action.Meta`
(`map[string]interface{}` in the source): booleans, int64 counts and
string-slice reason histories. -/
inductive MetaValue : Type where
  | bool (b : Bool)
  | int (i : Int)
  | strList (l : List String)
deriving DecidableEq

/-- Meta key `nomad_autoscaler.dry_run`. -/
def metaKeyDryRun : String := "nomad_autoscaler.dry_run"

/-- Meta key `nomad_autoscaler.dry_run.count`. -/
def metaKeyDryRunCount : String := "nomad_autoscaler.dry_run.count"

/-- Meta key `nomad_autoscaler.count.capped`. -/
def metaKeyCountCapped : String := "nomad_autoscaler.count.capped"

/-- Meta key `nomad_autoscaler.count.original`. -/
def metaKeyCountOriginal : String := "nomad_autoscaler.count.original"

/-- Meta key `nomad_autoscaler.reason_history`. -/
def metaKeyReasonHistory : String := "nomad_autoscaler.reason_history"

/-- `MetaValueDryRunCount`: the dry-run sentinel count. -/
def MetaValueDryRunCount : Int := -1

/-- `strategy.Action`: a strategy's intention to modify the target.
`Meta` is a possibly-nil Go map, hence `Option`; writing to a nil map
panics, which the operations below reflect by returning `none`. -/
structure Action where
  Count : Int
  Reason : String
  Error : Bool
  Meta : Option (List (String × MetaValue))
deriving DecidableEq

/-- `Action.Canonicalize`: ensures `Meta` is non-nil. -/
def Action.Canonicalize (a : Action) : Action :=
  match a.Meta with
  | none => { a with Meta := some [] }
  | some _ => a

/-- `Action.SetDryRun`: records the dry-run flag and the original count in
`Meta`, then replaces `Count` with the sentinel.  A nil `Meta` makes the
map writes panic (`none`). -/
def Action.SetDryRun (a : Action) : Option Action :=
  match a.Meta with
  | none => none
  | some m =>
    some { a with
           Meta := some (mInsert (mInsert m metaKeyDryRun (.bool true))
                                 metaKeyDryRunCount (.int a.Count))
           Count := MetaValueDryRunCount }

/-- The history slice `pushReason` starts from: the meta entry when it is
present with the string-slice type, empty otherwise. -/
def baseHistory (m : List (String × MetaValue)) : List String :=
  match mLookup m metaKeyReasonHistory with
  | some (.strList l) => l
  | _ => []

/-- `Action.pushReason`: appends the current non-empty `Reason` to the
history list kept in `Meta` (starting fresh unless an existing entry is a
string slice) and sets `Reason` to the new value.  A nil `Meta` makes the
history write panic (`none`). -/
def Action.pushReason (r : String) (a : Action) : Option Action :=
  match a.Meta with
  | none => none
  | some m =>
    let history : List String := baseHistory m
    let history := if a.Reason ≠ "" then history ++ [a.Reason] else history
    some { a with
           Meta := some (mInsert m metaKeyReasonHistory (.strList history))
           Reason := r }

/-- `Action.CapCount`: no-op on the dry-run sentinel; otherwise clamps
`Count` into `[mn, mx]` and, when that changes the value, records the
capped flag and original count and pushes a reason.  A nil `Meta` makes
the recording panic (`none`). -/
def Action.CapCount (mn mx : Int) (a : Action) : Option Action :=
  if a.Count = MetaValueDryRunCount then some a
  else
    let oldCount := a.Count
    let newCount := if oldCount < mn then mn else if oldCount > mx then mx else oldCount
    if newCount ≠ oldCount then
      match a.Meta with
      | none => none
      | some m =>
        let m' := mInsert (mInsert m metaKeyCountCapped (.bool true))
                          metaKeyCountOriginal (.int oldCount)
        match Action.pushReason
            ("capped count from " ++ toString oldCount ++ " to " ++ toString newCount ++
             " to stay within limits")
            { a with Meta := some m' } with
        | none => none
        | some a' => some { a' with Count := newCount }
    else some a

/-- Runs `Action.pushReason` for each reason in order, propagating a
panic. -/
def pushReasons : List String → Action → Option Action
  | [], a => some a
  | r :: t, a =>
    match Action.pushReason r a with
    | none => none
    | some a' => pushReasons t a'

/-- The reason-history list stored in an action's `Meta`, when present
with the string-slice type. -/
def actionHistory (a : Action) : Option (List String) :=
  match a.Meta with
  | none => none
  | some m =>
    match mLookup m metaKeyReasonHistory with
    | some (.strList l) => some l
    | _ => none

/-- `target.Status` result: current count and readiness. -/
structure TargetStatus where
  Count : Int
  Ready : Bool
deriving DecidableEq

/-- Oracle for the plugin calls one check evaluation performs
(`handlePolicyCheck` in agent/agent.go): whether each of the three
dispenses succeeds, the target status call's result (`none` is an error),
whether the APM query succeeds, and the strategy run's result (`none` is
an error).  The metric value is opaque to the engine and already folded
into `runResult`. -/
structure PluginEnv where
  targetDispensed : Bool
  apmDispensed : Bool
  strategyDispensed : Bool
  status : Option TargetStatus
  queryOk : Bool
  runResult : Option (List Action)
deriving DecidableEq

/-- `Agent.handlePolicyCheck` (agent/agent.go): dispense the three
plugins, fetch the target status, query the APM, run the strategy; any
failure or a not-ready target aborts with no actions.  When the strategy
returns no actions, one action is synthesized if the current count
violates `[Policy.Min, Policy.Max]`, else none.  The resulting actions
are returned as-is: the scale/reconcile loop in the source is commented
out (`TODO: lazily commented out for now`). -/
def handlePolicyCheck (env : PluginEnv) (p : Policy) (_c : Check) : List Action :=
  if !env.targetDispensed then []
  else if !env.apmDispensed then []
  else if !env.strategyDispensed then []
  else
    match env.status with
    | none => []
    | some st =>
      if !st.Ready then []
      else if !env.queryOk then []
      else
        match env.runResult with
        | none => []
        | some actions =>
          if actions.isEmpty then
            if st.Count < p.Min then
              [{ Count := p.Min
                 Reason := "current count (" ++ toString st.Count ++ ") below limit (" ++
                           toString p.Min ++ ")"
                 Error := false
                 Meta := none }]
            else if st.Count > p.Max then
              [{ Count := p.Max
                 Reason := "current count (" ++ toString st.Count ++ ") above limit (" ++
                           toString p.Max ++ ")"
                 Error := false
                 Meta := none }]
            else []
          else actions

/-- What one check evaluation observably does: the actions it returns to
the `Run` loop, the `Scale` invocations it performs, and the
`EnforceCooldown` calls it makes. -/
structure EvalEffects where
  actions : List Action
  scaleCalls : List Action
  cooldownCalls : List (String × Int)
deriving DecidableEq

/-- One check evaluation with its side effects.  In the source the entire
execution block of `handlePolicyCheck` (canonicalize, cap, dry-run
conversion, skip-if-unchanged, `Scale`, `EnforceCooldown`) is commented
out and `Run` carries `TODO: reconcile actions and execute them`, so the
active code performs no `Scale` or `EnforceCooldown` call on any input. -/
def handlePolicyCheckEffects (env : PluginEnv) (p : Policy) (c : Check) : EvalEffects :=
  { actions := handlePolicyCheck env p c
    scaleCalls := []
    cooldownCalls := [] }

/-! ### Helper lemmas -/

lemma mLookup_mInsert_self {α : Type} (m : List (String × α)) (k : String) (v : α) :
    mLookup (mInsert m k v) k = some v := by
  induction m with
  | nil => simp [mInsert, mLookup]
  | cons kv t ih =>
    obtain ⟨k', v'⟩ := kv
    by_cases h : k' = k
    · simp [mInsert, h, mLookup]
    · simp [mInsert, h, mLookup, ih]

lemma mLookup_mInsert_ne {α : Type} (m : List (String × α)) (k' k : String) (v : α)
    (h : k' ≠ k) : mLookup (mInsert m k' v) k = mLookup m k := by
  induction m with
  | nil => simp [mInsert, mLookup, h]
  | cons kv t ih =>
    obtain ⟨k₁, v₁⟩ := kv
    by_cases h1 : k₁ = k'
    · subst h1; simp [mInsert, mLookup, h]
    · simp [mInsert, h1, mLookup, ih]

lemma mLookup_eq_none_of_not_mem {α : Type} (m : List (String × α)) (k : String)
    (h : k ∉ m.map Prod.fst) : mLookup m k = none := by
  induction m with
  | nil => rfl
  | cons kv t ih =>
    obtain ⟨k₁, v₁⟩ := kv
    simp only [List.map_cons, List.mem_cons] at h
    push_neg at h
    rw [mLookup, if_neg (fun hh => h.1 hh.symm)]
    exact ih h.2

lemma mLookup_foldl_mInsert {β α : Type} (g : β → α) (l : List (String × β)) :
    ∀ (init : List (String × α)) (k : String), (l.map Prod.fst).Nodup →
    mLookup (l.foldl (fun acc kv => mInsert acc kv.1 (g kv.2)) init) k
      = ((mLookup l k).map g <|> mLookup init k) := by
  induction l with
  | nil => intro init k _; simp [mLookup]
  | cons kv t ih =>
    intro init k h
    obtain ⟨k₁, v₁⟩ := kv
    simp only [List.map_cons, List.nodup_cons] at h
    rw [List.foldl_cons, ih _ k h.2]
    by_cases hk : k₁ = k
    · subst hk
      have ht : mLookup t k₁ = none := mLookup_eq_none_of_not_mem t k₁ h.1
      simp [mLookup, ht, mLookup_mInsert_self]
    · simp [mLookup, hk, mLookup_mInsert_ne _ _ _ _ hk]

lemma parseBlock_eq_some {o : Option GoVal} {m : List (String × GoVal)}
    (h : parseBlock o = some m) : o = some (.list [.map m]) := by
  match o with
  | none => simp [parseBlock] at h
  | some (.str s) => simp [parseBlock] at h
  | some (.num n) => simp [parseBlock] at h
  | some (.bool b) => simp [parseBlock] at h
  | some (.map mm) => simp [parseBlock] at h
  | some (.list []) => simp [parseBlock] at h
  | some (.list [.str s]) => simp [parseBlock] at h
  | some (.list [.num n]) => simp [parseBlock] at h
  | some (.list [.bool b]) => simp [parseBlock] at h
  | some (.list [.list ys]) => simp [parseBlock] at h
  | some (.list [.map mm]) =>
    simp only [parseBlock, Option.some.injEq] at h
    rw [h]
  | some (.list (x :: y :: t)) => simp [parseBlock] at h

lemma ne_of_take15 (t r : String) (hr : r.data.take 15 ≠ "scaling.policy.".data) :
    "scaling.policy." ++ t ≠ r := by
  intro h
  apply hr
  rw [← h, String.data_append]
  have hlen : ("scaling.policy.".data).length = 15 := rfl
  rw [← hlen, List.take_left]

lemma validateChecksBlock_msg_shape (v : Option GoVal) :
    ∀ s ∈ validateChecksBlock v, ∃ t, s = "scaling.policy." ++ t := by
  intro s hs
  unfold validateChecksBlock at hs
  split at hs
  · exact ⟨keyChecks ++ " is invalid", by simpa using hs⟩
  · rcases List.mem_append.mp hs with h1 | h2
    · split at h1
      · exact ⟨keyChecks ++ " must have at least 1 block", by simpa using h1⟩
      · simp at h1
    · obtain ⟨l, hl, hsl⟩ := List.mem_flatten.mp h2
      obtain ⟨kv, hkvmem, hkveq⟩ := List.mem_map.mp hl
      rw [← hkveq] at hsl
      split at hsl
      · exact ⟨keyChecks ++ "[" ++ kv.1 ++ "] is invalid", by simpa using hsl⟩
      · unfold validateCheckHorizontal at hsl
        split at hsl
        · simp at hsl
        · have hs' : s = ("scaling.policy." ++ (keyChecks ++ "[" ++ kv.1 ++ "]")) ++ "." ++
              keyQuery ++ " is missing" := by simpa using hsl
          refine ⟨keyChecks ++ ("[" ++ (kv.1 ++ ("]." ++ (keyQuery ++ " is missing")))), ?_⟩
          rw [hs']
          simp [String.append_assoc]

lemma capCount_sentinel (a : Action) (mn mx : Int) (h : a.Count = MetaValueDryRunCount) :
    Action.CapCount mn mx a = some a := by
  unfold Action.CapCount
  rw [if_pos h]

lemma capCount_noop (a : Action) (mn mx : Int)
    (h : a.Count = MetaValueDryRunCount ∨ (¬ a.Count < mn ∧ ¬ a.Count > mx)) :
    Action.CapCount mn mx a = some a := by
  rcases h with h | ⟨h1, h2⟩
  · exact capCount_sentinel a mn mx h
  · by_cases hs : a.Count = MetaValueDryRunCount
    · exact capCount_sentinel a mn mx hs
    · unfold Action.CapCount
      rw [if_neg hs]
      simp [h1, h2]

lemma capCount_count (a : Action) (mn mx : Int) (a' : Action)
    (h : Action.CapCount mn mx a = some a') :
    a'.Count = if a.Count = MetaValueDryRunCount then a.Count
               else if a.Count < mn then mn else if a.Count > mx then mx else a.Count := by
  unfold Action.CapCount at h
  by_cases hs : a.Count = MetaValueDryRunCount
  · rw [if_pos hs] at h
    cases h
    simp [hs]
  · rw [if_neg hs] at h
    simp only [] at h
    rw [if_neg hs]
    by_cases hne : (if a.Count < mn then mn else if a.Count > mx then mx else a.Count) ≠ a.Count
    · rw [if_pos hne] at h
      rcases hm : a.Meta with _ | m
      · rw [hm] at h; simp at h
      · rw [hm] at h
        simp only [Action.pushReason] at h
        cases h
        rfl
    · rw [if_neg hne] at h
      cases h
      push_neg at hne
      rw [hne]

/-- Claim C7: `CapCount` on an action carrying the dry-run sentinel count
is a complete no-op (the action, `Meta` included, is returned unchanged),
and whenever `SetDryRun` followed by `CapCount` completes, the final count
is the sentinel `-1`. -/
theorem spec_C7_dry_run_frame :
    (∀ (a : Action) (mn mx : Int), a.Count = -1 → Action.CapCount mn mx a = some a) ∧
    (∀ (a : Action) (mn mx : Int) (a'' : Action),
      a.SetDryRun.bind (Action.CapCount mn mx) = some a'' → a''.Count = -1) := by
  constructor
  · intro a mn mx h
    exact capCount_sentinel a mn mx h
  · intro a mn mx a'' h
    rcases hm : a.Meta with _ | m
    · rw [Action.SetDryRun, hm] at h
      simp at h
    · rw [Action.SetDryRun, hm] at h
      simp only [Option.some_bind] at h
      rw [capCount_sentinel _ mn mx rfl] at h
      cases h
      rfl

def exC7dry : Action := { Count := -1, Reason := "", Error := false, Meta := none }

def exC7pre : Action := { Count := 3, Reason := "", Error := false, Meta := some [] }

def exC7post : Action :=
  { Count := -1, Reason := "", Error := false
    Meta := some [(metaKeyDryRun, .bool true), (metaKeyDryRunCount, .int 3)] }

theorem spec_C7_witness :
    Action.CapCount 2 10 exC7dry = some exC7dry ∧ exC7post.Count = -1 :=
  ⟨spec_C7_dry_run_frame.1 exC7dry 2 10 rfl,
   spec_C7_dry_run_frame.2 exC7pre 2 10 exC7post rfl⟩

def exC8 : Action := { Count := 1, Reason := "", Error := false, Meta := some [] }

/-- Claim C8, counterexample: with inverted bounds `mn = 5 > 3 = mx`,
capping `Count = 1` once yields `5`, capping twice yields `3`, so
`CapCount` is not idempotent for every pair of bounds. -/
theorem spec_C8_counterexample :
    (Action.CapCount 5 3 exC8).map Action.Count = some 5 ∧
    ((Action.CapCount 5 3 exC8).bind (Action.CapCount 5 3)).map Action.Count = some 3 :=
  ⟨rfl, rfl⟩

/-- Claim C8 as amended: for bounds with `mn ≤ mx`, `CapCount` is
idempotent — a second application returns the first result unchanged (in
particular the same `Count`). -/
theorem spec_C8_amended (a : Action) (mn mx : Int) (a' : Action)
    (hb : mn ≤ mx) (h : Action.CapCount mn mx a = some a') :
    Action.CapCount mn mx a' = some a' := by
  have hc := capCount_count a mn mx a' h
  apply capCount_noop
  by_cases hs : a.Count = MetaValueDryRunCount
  · rw [if_pos hs] at hc
    left
    rw [hc, hs]
  · rw [if_neg hs] at hc
    unfold MetaValueDryRunCount at *
    by_cases h1 : a.Count < mn
    · rw [if_pos h1] at hc
      by_cases h2 : mn = -1
      · left; rw [hc]; exact h2
      · right; constructor <;> omega
    · rw [if_neg h1] at hc
      by_cases h2 : a.Count > mx
      · rw [if_pos h2] at hc
        by_cases h3 : mx = -1
        · left; rw [hc]; exact h3
        · right; constructor <;> omega
      · rw [if_neg h2] at hc
        right
        constructor <;> omega

def exC8w : Action :=
  { Count := 2, Reason := "capped count from 1 to 2 to stay within limits", Error := false
    Meta := some [(metaKeyCountCapped, .bool true), (metaKeyCountOriginal, .int 1),
                  (metaKeyReasonHistory, .strList [])] }

theorem spec_C8_witness : Action.CapCount 2 10 exC8w = some exC8w :=
  spec_C8_amended exC8 2 10 exC8w (by norm_num) rfl

/-- Claim C10: with a nil `Meta` map, `SetDryRun` faults, and `CapCount`
faults whenever it has to record a cap (non-sentinel count outside the
bounds); a prior `Canonicalize` establishes a non-nil `Meta` under which
`SetDryRun` succeeds. -/
theorem spec_C10_nil_meta :
    (∀ a : Action, a.Meta = none → a.SetDryRun = none) ∧
    (∀ (a : Action) (mn mx : Int), a.Meta = none → a.Count ≠ MetaValueDryRunCount →
      (a.Count < mn ∨ a.Count > mx) → Action.CapCount mn mx a = none) ∧
    (∀ a : Action, a.Canonicalize.Meta ≠ none) ∧
    (∀ a : Action, a.Canonicalize.SetDryRun.isSome = true) := by
  refine ⟨?_, ?_, ?_, ?_⟩
  · intro a h
    rw [Action.SetDryRun, h]
  · intro a mn mx hm hs hout
    have hne : (if a.Count < mn then mn else if a.Count > mx then mx else a.Count) ≠ a.Count := by
      rcases hout with h1 | h1
      · rw [if_pos h1]; omega
      · by_cases hlt : a.Count < mn
        · rw [if_pos hlt]; omega
        · rw [if_neg hlt, if_pos h1]; omega
    unfold Action.CapCount
    rw [if_neg hs]
    simp only [hm]
    rw [if_pos hne]
  · intro a
    unfold Action.Canonicalize
    rcases h : a.Meta with _ | m
    · simp
    · simp [h]
  · intro a
    unfold Action.Canonicalize
    rcases h : a.Meta with _ | m
    · simp [Action.SetDryRun]
    · simp [Action.SetDryRun, h]

def exC10 : Action := { Count := 5, Reason := "", Error := false, Meta := none }

theorem spec_C10_witness :
    Action.SetDryRun exC10 = none ∧ Action.CapCount 10 20 exC10 = none ∧
    exC10.Canonicalize.Meta ≠ none ∧ exC10.Canonicalize.SetDryRun.isSome = true :=
  ⟨spec_C10_nil_meta.1 exC10 rfl,
   spec_C10_nil_meta.2.1 exC10 10 20 rfl (by decide) (Or.inl (by decide)),
   spec_C10_nil_meta.2.2.1 exC10,
   spec_C10_nil_meta.2.2.2 exC10⟩

lemma pushReason_step (a : Action) (m : List (String × MetaValue)) (r : String)
    (hm : a.Meta = some m) (hr : a.Reason ≠ "") :
    Action.pushReason r a = some { a with
      Meta := some (mInsert m metaKeyReasonHistory (.strList (baseHistory m ++ [a.Reason])))
      Reason := r } := by
  unfold Action.pushReason
  rw [hm]
  simp [hr]

lemma pushReason_step_empty (a : Action) (m : List (String × MetaValue)) (r : String)
    (hm : a.Meta = some m) (hr : a.Reason = "") :
    Action.pushReason r a = some { a with
      Meta := some (mInsert m metaKeyReasonHistory (.strList (baseHistory m)))
      Reason := r } := by
  unfold Action.pushReason
  rw [hm]
  simp [hr]

lemma pushReasons_run (rs : List String) :
    ∀ (a : Action) (m : List (String × MetaValue)),
      a.Meta = some m → a.Reason ≠ "" → rs ≠ [] → (∀ r ∈ rs, r ≠ "") →
      ∃ (a' : Action) (m' : List (String × MetaValue)),
        pushReasons rs a = some a' ∧ a'.Meta = some m' ∧
        mLookup m' metaKeyReasonHistory =
          some (.strList (baseHistory m ++ (a.Reason :: rs).dropLast)) ∧
        rs.getLast? = some a'.Reason := by
  induction rs with
  | nil => intro a m _ _ hne _; exact absurd rfl hne
  | cons r t ih =>
    intro a m hm hr _ hall
    have hstep := pushReason_step a m r hm hr
    cases t with
    | nil =>
      refine ⟨{ a with
                Meta := some (mInsert m metaKeyReasonHistory
                                (.strList (baseHistory m ++ [a.Reason])))
                Reason := r },
              mInsert m metaKeyReasonHistory (.strList (baseHistory m ++ [a.Reason])),
              ?_, rfl, ?_, ?_⟩
      · simp only [pushReasons, hstep]
      · rw [mLookup_mInsert_self]
        rfl
      · rfl
    | cons r2 t2 =>
      have hall' : ∀ x ∈ (r2 :: t2), x ≠ "" := fun x hx => hall x (List.mem_cons_of_mem r hx)
      have hrne : r ≠ "" := hall r (List.mem_cons_self r _)
      obtain ⟨a', m', hps, hm', hlook, hlast⟩ :=
        ih { a with
             Meta := some (mInsert m metaKeyReasonHistory
                             (.strList (baseHistory m ++ [a.Reason])))
             Reason := r }
           (mInsert m metaKeyReasonHistory (.strList (baseHistory m ++ [a.Reason])))
           rfl hrne (by simp) hall'
      refine ⟨a', m', ?_, hm', ?_, ?_⟩
      · simp only [pushReasons, hstep]
        exact hps
      · rw [hlook]
        have hb : baseHistory (mInsert m metaKeyReasonHistory
            (.strList (baseHistory m ++ [a.Reason]))) = baseHistory m ++ [a.Reason] := by
          unfold baseHistory
          rw [mLookup_mInsert_self]
        rw [hb]
        simp [List.append_assoc]
      · rw [List.getLast?_cons_cons]
        exact hlast

def exC9 : Action := { Count := 0, Reason := "r0", Error := false, Meta := some [] }

/-- Claim C9, counterexample: on an action whose `Reason` is already
non-empty ("r0"), a single `pushReason` leaves a history of length 1, not
N−1 = 0: the initial reason is also superseded and recorded. -/
theorem spec_C9_counterexample :
    ((pushReasons ["r1"] exC9).bind actionHistory).map List.length = some 1 ∧
    (1 : Nat) ≠ 1 - 1 :=
  ⟨rfl, by decide⟩

/-- Claim C9 as amended: for an action whose `Meta` is non-nil and carries
no starting reason history and whose `Reason` is empty, pushing N
non-empty reasons in sequence leaves `Meta[reason_history]` holding
exactly the first N−1 pushed reasons in call order (length N−1) and
leaves `Reason` equal to the last pushed value. -/
theorem spec_C9_amended (a : Action) (m : List (String × MetaValue)) (rs : List String)
    (hm : a.Meta = some m) (hr : a.Reason = "") (hh : baseHistory m = [])
    (hne : rs ≠ []) (hall : ∀ r ∈ rs, r ≠ "") :
    ∃ (a' : Action) (m' : List (String × MetaValue)),
      pushReasons rs a = some a' ∧ a'.Meta = some m' ∧
      mLookup m' metaKeyReasonHistory = some (.strList rs.dropLast) ∧
      rs.dropLast.length = rs.length - 1 ∧
      rs.getLast? = some a'.Reason := by
  cases rs with
  | nil => exact absurd rfl hne
  | cons r t =>
    have hstep := pushReason_step_empty a m r hm hr
    rw [hh] at hstep
    cases t with
    | nil =>
      refine ⟨{ a with
                Meta := some (mInsert m metaKeyReasonHistory (.strList []))
                Reason := r },
              mInsert m metaKeyReasonHistory (.strList []), ?_, rfl, ?_, ?_, ?_⟩
      · simp only [pushReasons, hstep]
      · rw [mLookup_mInsert_self]
        rfl
      · rfl
      · rfl
    | cons r2 t2 =>
      have hall' : ∀ x ∈ (r2 :: t2), x ≠ "" := fun x hx => hall x (List.mem_cons_of_mem r hx)
      have hrne : r ≠ "" := hall r (List.mem_cons_self r _)
      obtain ⟨a', m', hps, hm', hlook, hlast⟩ :=
        pushReasons_run (r2 :: t2)
          { a with
            Meta := some (mInsert m metaKeyReasonHistory (.strList []))
            Reason := r }
          (mInsert m metaKeyReasonHistory (.strList []))
          rfl hrne (by simp) hall'
      refine ⟨a', m', ?_, hm', ?_, ?_, ?_⟩
      · simp only [pushReasons, hstep]
        exact hps
      · rw [hlook]
        have hb : baseHistory (mInsert m metaKeyReasonHistory (.strList [])) = [] := by
          unfold baseHistory
          rw [mLookup_mInsert_self]
        rw [hb]
        simp
      · simp [List.length_dropLast]
      · rw [List.getLast?_cons_cons]
        exact hlast

def exC9w : Action := { Count := 0, Reason := "", Error := false, Meta := some [] }

theorem spec_C9_witness :
    ∃ (a' : Action) (m' : List (String × MetaValue)),
      pushReasons ["a", "b", "c"] exC9w = some a' ∧ a'.Meta = some m' ∧
      mLookup m' metaKeyReasonHistory = some (.strList (["a", "b", "c"].dropLast)) ∧
      (["a", "b", "c"] : List String).dropLast.length = (["a", "b", "c"] : List String).length - 1 ∧
      (["a", "b", "c"] : List String).getLast? = some a'.Reason :=
  spec_C9_amended exC9w [] ["a", "b", "c"] rfl rfl rfl (by decide) (by decide)

/-- Claim C5: when all plugin steps succeed and the strategy returns zero
actions, the engine synthesizes exactly one action raising to `Min` when
the current count is below it (reason citing the below-limit violation),
exactly one action lowering to `Max` when above it, and zero actions
otherwise. -/
theorem spec_C5_min_max_synthesis (env : PluginEnv) (p : Policy) (c : Check) (cnt : Int)
    (h1 : env.targetDispensed = true) (h2 : env.apmDispensed = true)
    (h3 : env.strategyDispensed = true) (h4 : env.status = some { Count := cnt, Ready := true })
    (h5 : env.queryOk = true) (h6 : env.runResult = some []) :
    handlePolicyCheck env p c =
      if cnt < p.Min then
        [{ Count := p.Min
           Reason := "current count (" ++ toString cnt ++ ") below limit (" ++
                     toString p.Min ++ ")"
           Error := false, Meta := none }]
      else if cnt > p.Max then
        [{ Count := p.Max
           Reason := "current count (" ++ toString cnt ++ ") above limit (" ++
                     toString p.Max ++ ")"
           Error := false, Meta := none }]
      else [] := by
  simp [handlePolicyCheck, h1, h2, h3, h4, h5, h6]

def envC5 : PluginEnv :=
  { targetDispensed := true, apmDispensed := true, strategyDispensed := true
    status := some { Count := 1, Ready := true }, queryOk := true, runResult := some [] }

def pC5 : Policy :=
  { ID := "p", Min := 2, Max := 10, Enabled := true, EvaluationInterval := 0, Cooldown := 0
    Target := none, Checks := [] }

def cC5 : Check := { Name := "c", Source := "apm", Query := "q", Strategy := none }

theorem spec_C5_witness :
    handlePolicyCheck envC5 pC5 cC5 =
      if (1 : Int) < pC5.Min then
        [{ Count := pC5.Min
           Reason := "current count (" ++ toString (1 : Int) ++ ") below limit (" ++
                     toString pC5.Min ++ ")"
           Error := false, Meta := none }]
      else if (1 : Int) > pC5.Max then
        [{ Count := pC5.Max
           Reason := "current count (" ++ toString (1 : Int) ++ ") above limit (" ++
                     toString pC5.Max ++ ")"
           Error := false, Meta := none }]
      else [] :=
  spec_C5_min_max_synthesis envC5 pC5 cC5 1 rfl rfl rfl rfl rfl rfl

def envC1 : PluginEnv :=
  { targetDispensed := true, apmDispensed := true, strategyDispensed := true
    status := some { Count := 1, Ready := true }, queryOk := true
    runResult := some [{ Count := 50, Reason := "scale up", Error := false, Meta := none }] }

def pC1 : Policy :=
  { ID := "policy1", Min := 1, Max := 10, Enabled := true, EvaluationInterval := 0, Cooldown := 0
    Target := some { Name := "t", Config := [] }, Checks := [] }

def cC1 : Check := { Name := "c1", Source := "apm", Query := "q", Strategy := some { Name := "s", Config := none } }

/-- Claim C1, evaluated at the failing input: with `Min = 1`, `Max = 10`,
current count 1 and a strategy action of count 50, the evaluation returns
the action unreconciled — count still 50 (not capped to 10), `Meta` still
nil (not canonicalized) — and performs no `Scale` call and no cooldown
enforcement: the execution step is commented out in the source, not
performed as the terminal step. -/
theorem spec_C1_execution_deferred :
    handlePolicyCheckEffects envC1 pC1 cC1 =
      { actions := [{ Count := 50, Reason := "scale up", Error := false, Meta := none }]
        scaleCalls := [], cooldownCalls := [] } := rfl

/-- Claim C2: for a raw document with `Min` absent, the validator records
exactly the "min is missing" violation for the bounds (the result is that
message followed only by check-block messages) and records neither the
"max is missing" message (even when `Max` is also absent) nor any of the
negativity/ordering messages. -/
theorem spec_C2_min_missing_only (p : RawScalingPolicy) (h : p.Min = none) :
    validateHorizontalPolicy p =
      "scaling.min is missing" :: validateChecksBlock (mLookup p.Policy keyChecks) ∧
    "scaling.max is missing" ∉ validateHorizontalPolicy p ∧
    "scaling.min can't be negative" ∉ validateHorizontalPolicy p ∧
    "scaling.min must be smaller than scaling.max" ∉ validateHorizontalPolicy p ∧
    "scaling.max can't be negative" ∉ validateHorizontalPolicy p := by
  have h1 : validateHorizontalPolicy p =
      "scaling.min is missing" :: validateChecksBlock (mLookup p.Policy keyChecks) := by
    unfold validateHorizontalPolicy validateBounds
    rw [h]
    rfl
  refine ⟨h1, ?_, ?_, ?_, ?_⟩ <;>
    · rw [h1]
      intro hmem
      rcases List.mem_cons.mp hmem with heq | hmem2
      · exact absurd heq (by decide)
      · obtain ⟨t, ht⟩ := validateChecksBlock_msg_shape _ _ hmem2
        exact ne_of_take15 t _ (by decide) ht.symm

def exC2 : RawScalingPolicy :=
  { ID := "p", Min := none, Max := none, Enabled := none, Target := none
    Policy := [(keyChecks, GoVal.list [GoVal.map
      [("c1", GoVal.list [GoVal.map [("query", GoVal.str "cpu")]])]])] }

theorem spec_C2_witness :
    validateHorizontalPolicy exC2 =
      "scaling.min is missing" :: validateChecksBlock (mLookup exC2.Policy keyChecks) ∧
    "scaling.max is missing" ∉ validateHorizontalPolicy exC2 ∧
    "scaling.min can't be negative" ∉ validateHorizontalPolicy exC2 ∧
    "scaling.min must be smaller than scaling.max" ∉ validateHorizontalPolicy exC2 ∧
    "scaling.max can't be negative" ∉ validateHorizontalPolicy exC2 :=
  spec_C2_min_missing_only exC2 rfl

def exC3 : RawScalingPolicy :=
  { ID := "p", Min := some 1, Max := some 2, Enabled := none, Target := none
    Policy := [(keyChecks, GoVal.list [GoVal.map
      [("c1", GoVal.list [GoVal.map
        [("query", GoVal.str ""),
         ("strategy", GoVal.list [GoVal.map [("name", GoVal.str "s")]])]])]])] }

/-- Claim C3, counterexample: a document whose check block carries the
query key with the empty-string value passes validation (only key
existence is checked) yet parses to a Check whose `Query` is empty. -/
theorem spec_C3_counterexample :
    validateHorizontalPolicy exC3 = [] ∧
    (parsePolicy exC3).Checks.map Check.Query = [""] :=
  ⟨rfl, rfl⟩

/-- Claim C3 as amended: if `validateHorizontalPolicy` returns nil then
the parsed Policy has `Min ≤ Max` whenever both bounds were present, and
every parsed Check arises from a labelled entry of the document's checks
map whose block contains the query key — the parsed `Query` string being
that key's string value, which may still be empty or come from a
non-string value (validation checks key existence only). -/
theorem spec_C3_amended (p : RawScalingPolicy) (hv : validateHorizontalPolicy p = []) :
    (∀ a b : Int, p.Min = some a → p.Max = some b →
      (parsePolicy p).Min ≤ (parsePolicy p).Max) ∧
    (∀ c ∈ (parsePolicy p).Checks,
      ∃ (m : List (String × GoVal)) (kv : String × GoVal) (cm : List (String × GoVal)),
        mLookup p.Policy keyChecks = some (GoVal.list [GoVal.map m]) ∧
        kv ∈ m ∧
        parseBlock (some kv.2) = some cm ∧
        (mLookup cm keyQuery).isSome ∧
        c.Name = kv.1 ∧
        c.Query = goString (mLookup cm keyQuery)) := by
  have hb := List.append_eq_nil.mp hv
  constructor
  · intro a b ha hbx
    have hbounds := hb.1
    unfold validateBounds at hbounds
    rw [ha, hbx] at hbounds
    have hord : ¬ a > b := by
      intro hab
      rcases List.append_eq_nil.mp hbounds with ⟨h12, _⟩
      rcases List.append_eq_nil.mp h12 with ⟨_, h2⟩
      rw [if_pos hab] at h2
      exact absurd h2 (by simp)
    simp only [parsePolicy, ha, hbx, Option.getD_some]
    omega
  · intro c hc
    have hcb := hb.2
    unfold validateChecksBlock at hcb
    split at hcb
    · exact absurd hcb (by simp)
    · rename_i m hpb
      have hv2 := parseBlock_eq_some hpb
      simp only [parsePolicy] at hc
      rw [hv2] at hc
      unfold parseChecks at hc
      simp only [List.map_cons, List.map_nil, List.flatten_cons, List.flatten_nil,
        List.append_nil] at hc
      obtain ⟨kv, hkvmem, hkveq⟩ := List.mem_filterMap.mp hc
      rcases List.append_eq_nil.mp hcb with ⟨_, hflat⟩
      have hentry := (List.flatten_eq_nil_iff.mp hflat) _ (List.mem_map_of_mem _ hkvmem)
      split at hentry
      · exact absurd hentry (by simp)
      · rename_i cm hpb2
        unfold validateCheckHorizontal at hentry
        split at hentry
        · rename_i hq
          have hpc : parseCheck (some kv.2) =
              some { Name := "", Source := goString (mLookup cm keySource)
                     Query := goString (mLookup cm keyQuery)
                     Strategy := parseStrategy (mLookup cm keyStrategy) } := by
            unfold parseCheck
            rw [hpb2]
          rw [hpc] at hkveq
          simp only [Option.map_some'] at hkveq
          cases hkveq
          exact ⟨m, kv, cm, hv2, hkvmem, hpb2, hq, rfl, rfl⟩
        · exact absurd hentry (by simp)

def exC3w : RawScalingPolicy :=
  { ID := "p", Min := some 1, Max := some 5, Enabled := none, Target := none
    Policy := [(keyChecks, GoVal.list [GoVal.map
      [("c1", GoVal.list [GoVal.map [("query", GoVal.str "cpu")]])]])] }

theorem spec_C3_witness :
    (∀ a b : Int, exC3w.Min = some a → exC3w.Max = some b →
      (parsePolicy exC3w).Min ≤ (parsePolicy exC3w).Max) ∧
    (∀ c ∈ (parsePolicy exC3w).Checks,
      ∃ (m : List (String × GoVal)) (kv : String × GoVal) (cm : List (String × GoVal)),
        mLookup exC3w.Policy keyChecks = some (GoVal.list [GoVal.map m]) ∧
        kv ∈ m ∧
        parseBlock (some kv.2) = some cm ∧
        (mLookup cm keyQuery).isSome ∧
        c.Name = kv.1 ∧
        c.Query = goString (mLookup cm keyQuery)) :=
  spec_C3_amended exC3w rfl

def exC4 : RawScalingPolicy :=
  { ID := "p", Min := some 1, Max := some 5, Enabled := none, Target := none
    Policy := [(keyChecks, GoVal.list [GoVal.map
      [("c1", GoVal.list [GoVal.map [("query", GoVal.str "cpu")]])]])] }

/-- Claim C4, counterexample: a check block with a query key but no
strategy block passes validation (the validator checks only the query
key), yet the parsed Check's `Strategy` is nil. -/
theorem spec_C4_counterexample :
    validateHorizontalPolicy exC4 = [] ∧
    (parsePolicy exC4).Checks.map Check.Strategy = [none] :=
  ⟨rfl, rfl⟩

/-- Claim C4 as amended: validation does not constrain the strategy: a
well-formed check block always parses, and its `Strategy` is non-nil
precisely when the block's strategy entry unwraps as a block (in which
case its `Name` is the block's name string, possibly empty); when the
strategy entry is absent or malformed, `Strategy` is nil even for a
validated check. -/
theorem spec_C4_amended (v : Option GoVal) (m : List (String × GoVal))
    (hpb : parseBlock v = some m) :
    ∃ chk : Check, parseCheck v = some chk ∧
      (chk.Strategy.isSome ↔ (parseBlock (mLookup m keyStrategy)).isSome) := by
  refine ⟨{ Name := "", Source := goString (mLookup m keySource)
            Query := goString (mLookup m keyQuery)
            Strategy := parseStrategy (mLookup m keyStrategy) }, ?_, ?_⟩
  · unfold parseCheck
    rw [hpb]
  · show (parseStrategy (mLookup m keyStrategy)).isSome ↔ _
    unfold parseStrategy
    rcases h : parseBlock (mLookup m keyStrategy) with _ | sm
    · simp
    · simp

def exC4w : GoVal :=
  GoVal.list [GoVal.map
    [("query", GoVal.str "cpu"),
     ("strategy", GoVal.list [GoVal.map [("name", GoVal.str "fixed")]])]]

theorem spec_C4_witness :
    ∃ chk : Check, parseCheck (some exC4w) = some chk ∧
      (chk.Strategy.isSome ↔
        (parseBlock (mLookup
          [("query", GoVal.str "cpu"),
           ("strategy", GoVal.list [GoVal.map [("name", GoVal.str "fixed")]])]
          keyStrategy)).isSome) :=
  spec_C4_amended (some exC4w) _ rfl

lemma parseTarget_shape (tname : String) (cfgBlock : List (String × GoVal))
    (attr : List (String × String)) :
    parseTarget
        (some (.list [.map [("name", .str tname), ("config", .list [.map cfgBlock])]]))
        (some attr)
      = some { Name := tname
               Config := cfgBlock.foldl (fun acc kv => mInsert acc kv.1 (goFormat kv.2))
                           (attr.foldl (fun acc kv => mInsert acc kv.1 kv.2) []) } := by
  rfl

/-- Claim C6: the merged target Config resolves every key with defined
precedence — the stringified `target.config` block value when the key is
in the block, falling back to the flat attribute map's value otherwise —
so it contains every key of both maps and the block wins on conflicts. -/
theorem spec_C6_target_merge (attr : List (String × String)) (cfgBlock : List (String × GoVal))
    (tname : String) (k : String)
    (h1 : (attr.map Prod.fst).Nodup) (h2 : (cfgBlock.map Prod.fst).Nodup) :
    ∃ t : Target,
      parseTarget
          (some (.list [.map [("name", .str tname), ("config", .list [.map cfgBlock])]]))
          (some attr) = some t ∧
      mLookup t.Config k = ((mLookup cfgBlock k).map goFormat <|> mLookup attr k) := by
  refine ⟨_, parseTarget_shape tname cfgBlock attr, ?_⟩
  have hB := mLookup_foldl_mInsert goFormat cfgBlock
    (attr.foldl (fun acc kv => mInsert acc kv.1 kv.2) []) k h2
  have hA := mLookup_foldl_mInsert (fun v : String => v) attr [] k h1
  rw [hB, hA]
  simp [mLookup]

def attrC6 : List (String × String) := [("a", "1"), ("b", "2")]

def cfgC6 : List (String × GoVal) := [("b", GoVal.str "3"), ("c", GoVal.str "4")]

theorem spec_C6_witness :
    (∃ t : Target,
      parseTarget (some (.list [.map [("name", .str "t"), ("config", .list [.map cfgC6])]]))
          (some attrC6) = some t ∧
      mLookup t.Config "b" = ((mLookup cfgC6 "b").map goFormat <|> mLookup attrC6 "b")) ∧
    (∃ t : Target,
      parseTarget (some (.list [.map [("name", .str "t"), ("config", .list [.map cfgC6])]]))
          (some attrC6) = some t ∧
      mLookup t.Config "a" = ((mLookup cfgC6 "a").map goFormat <|> mLookup attrC6 "a")) ∧
    (∃ t : Target,
      parseTarget (some (.list [.map [("name", .str "t"), ("config", .list [.map cfgC6])]]))
          (some attrC6) = some t ∧
      mLookup t.Config "c" = ((mLookup cfgC6 "c").map goFormat <|> mLookup attrC6 "c")) ∧
    parseTarget (some (.list [.map [("name", .str "t"), ("config", .list [.map cfgC6])]]))
        (some attrC6)
      = some { Name := "t", Config := [("a", "1"), ("b", "3"), ("c", "4")] } :=
  ⟨spec_C6_target_merge attrC6 cfgC6 "t" "b" (by decide) (by decide),
   spec_C6_target_merge attrC6 cfgC6 "t" "a" (by decide) (by decide),
   spec_C6_target_merge attrC6 cfgC6 "t" "c" (by decide) (by decide),
   rfl⟩

end Autoscaler
